import Mathlib

/-!
Verification of the batch solve-and-report orchestration in `main.py`
(Gurobi-model-runner).

Strings are modelled as lists of characters (`Str`).  Python floats that the
program prints and re-parses are modelled by their decimal literal strings:
the program writes `v.X` with `f"{...}"` (producing `repr` of the float) and
reads it back with `float(...)`, and `float(repr(x)) == x` in Python, so
string equality of the canonical literals coincides with float equality.
Parse *success* of `float(s)` is modelled by the executable recogniser
`pyFloatParses`.
-/

set_option synthInstance.maxSize 1000
set_option maxRecDepth 8000
set_option maxHeartbeats 1000000

namespace GurobiRunner

abbrev Str := List Char

/-- Character list of a string literal. -/
def lit (s : String) : Str := s.data

/-- The newline character. -/
def nl : Char := '\n'

/-- Python `str.strip()` whitespace class (space, tab, newline, CR, VT, FF). -/
def isPyWS (c : Char) : Bool :=
  c = ' ' || c = '\t' || c = '\n' || c = '\r' || c = '\x0b' || c = '\x0c'

/-- Drop trailing whitespace (the right half of Python `str.strip()`). -/
def dropTrail (s : Str) : Str := (s.reverse.dropWhile isPyWS).reverse

/-- Python `str.strip()` with no argument. -/
def pyStrip (s : Str) : Str := dropTrail (s.dropWhile isPyWS)

/-- The separator line `"-"*80` written before the log block (main.py line 56). -/
def dashes80 : Str := List.replicate 80 '-'

/-- `leadsWith p s` holds when `p` is an initial run of `s`
(Python `s.startswith(p)` restricted to the front). -/
def leadsWith : Str → Str → Bool
  | [], _ => true
  | _ :: _, [] => false
  | a :: as, b :: bs => a == b && leadsWith as bs

/-- Python's substring test `p in s` (contiguous occurrence). -/
def isSubstr (pat : Str) : Str → Bool
  | [] => leadsWith pat []
  | c :: rest => leadsWith pat (c :: rest) || isSubstr pat rest

/-- Python `s.endswith(p)`. -/
def endsWithStr (pat s : Str) : Bool := leadsWith pat.reverse s.reverse

/-- Python `line.split(': ')`: split on each leftmost non-overlapping
occurrence of the two-character separator `": "`.  The first argument is the
reversed accumulator for the current piece. -/
def splitCS : Str → Str → List Str
  | acc, ':' :: ' ' :: rest => acc.reverse :: splitCS [] rest
  | acc, c :: rest => splitCS (c :: acc) rest
  | acc, [] => [acc.reverse]

/-- `': ' in line` (main.py line 84). -/
def hasCS (s : Str) : Bool := isSubstr (lit ": ") s

/-- Split on a single character, keeping empty pieces (used for `'\n'` and,
with `'/'`, for `os.path.basename`). -/
def splitChar (sep : Char) : Str → Str → List Str
  | acc, [] => [acc.reverse]
  | acc, c :: rest =>
    if c = sep then acc.reverse :: splitChar sep [] rest
    else splitChar sep (c :: acc) rest

/-- Python `f.readlines()` with the line terminators already stripped:
split the file text on `'\n'`; a trailing newline produces no extra
empty line. -/
def pyReadLines (t : Str) : List Str :=
  let ps := splitChar nl [] t
  if ps.getLast? = some [] then ps.dropLast else ps

/-- Fuel-driven split on a (non-empty) multi-character separator,
leftmost non-overlapping occurrences; mirrors Python `str.split(sep)`. -/
def splitOnLAux (pat : Str) : Nat → Str → Str → List Str
  | _, [], acc => [acc.reverse]
  | 0, s, acc => [acc.reverse ++ s]
  | fuel + 1, c :: rest, acc =>
    if leadsWith pat (c :: rest) then
      acc.reverse :: splitOnLAux pat fuel ((c :: rest).drop pat.length) []
    else splitOnLAux pat fuel rest (c :: acc)

def splitOnL (s pat : Str) : List Str := splitOnLAux pat s.length s []

/-- Python `s.replace(pat, rep)` (replaces every occurrence; for a non-empty
pattern this equals joining the split pieces with the replacement). -/
def replaceAllL (s pat rep : Str) : Str := List.intercalate rep (splitOnL s pat)

/-- Digit test for the float-literal recogniser. -/
def isDigitCh (c : Char) : Bool := '0' ≤ c && c ≤ '9'

def digitsNonempty (s : Str) : Bool := !s.isEmpty && s.all isDigitCh

/-- Optional exponent tail of a float literal: empty, or `e`/`E`,
an optional sign, and at least one digit. -/
def expPart : Str → Bool
  | [] => true
  | c :: r =>
    (c = 'e' || c = 'E') &&
      (match r with
       | c2 :: r2 => if c2 = '+' || c2 = '-' then digitsNonempty r2 else digitsNonempty (c2 :: r2)
       | [] => false)

/-- Unsigned decimal float body: `digits [. digits] [exp]` or `. digits [exp]`. -/
def floatBody (s : Str) : Bool :=
  let intPart := s.takeWhile isDigitCh
  let rest := s.dropWhile isDigitCh
  match rest with
  | [] => !intPart.isEmpty
  | '.' :: r =>
    let frac := r.takeWhile isDigitCh
    let rest2 := r.dropWhile isDigitCh
    (!intPart.isEmpty || !frac.isEmpty) && expPart rest2
  | _ => !intPart.isEmpty && expPart rest

def lowerAscii (s : Str) : Str := s.map Char.toLower

/-- Model of Python `float(s)` succeeding: surrounding whitespace stripped,
an optional sign, then a decimal body or `inf`/`infinity`/`nan` in any case.
(Underscored digit groups are omitted; no value in this development uses
them.) -/
def pyFloatParses (s : Str) : Bool :=
  let t := pyStrip s
  let t2 := match t with
            | c :: r => if c = '+' || c = '-' then r else t
            | [] => []
  floatBody t2 || lowerAscii t2 == lit "inf" || lowerAscii t2 == lit "infinity"
    || lowerAscii t2 == lit "nan"

/-- The marker substring checked by `solve_models` (line 200) and
`save_to_excel` (line 128). -/
def marker : Str := lit "Time limit reached"

/-- One solve's captured output, as written by `execute_model_from_file`:
variable name/value pairs (`v.VarName`, `v.X`), the captured log lines
(`splitlines`, hence newline-free), and the four summary statistics. -/
structure SolveRecord where
  vars : List (Str × Str)
  log : List Str
  objVal : Str
  runtime : Str
  iterCount : Str
  nodeCount : Str
deriving DecidableEq

/-- The variable line `f"{v.VarName}: {v.X}"` (main.py line 55). -/
def varLine (p : Str × Str) : Str := p.1 ++ lit ": " ++ p.2

/-- Python `"\n".join(lines)` (main.py line 57). -/
def joinNL : List Str → Str
  | [] => []
  | [l] => l
  | l :: ls => l ++ nl :: joinNL ls

/-- The exact text `execute_model_from_file` writes to the temp file
(main.py lines 53-62): each variable line with a newline, a blank line and
the 80-dash marker, the log joined with newlines, and the four statistics
lines, the first preceded by a newline. -/
def fileText (r : SolveRecord) : Str :=
  (r.vars.map (fun p => varLine p ++ [nl])).flatten
    ++ [nl] ++ dashes80 ++ [nl]
    ++ joinNL r.log
    ++ [nl] ++ lit "Objective Value: " ++ r.objVal
    ++ [nl] ++ lit "Solve Time (seconds): " ++ r.runtime
    ++ [nl] ++ lit "Iterations: " ++ r.iterCount
    ++ [nl] ++ lit "Node Count: " ++ r.nodeCount ++ [nl]

/-- The reading loop of `read_temp_files` (main.py lines 78-87) over the
lines of one temp file.  The `Bool` is `is_log`.  Before the marker line, a
line containing `": "` is stripped and split; anything other than exactly
two pieces, or a second piece `float()` rejects, raises (modelled by
`none`).  After the marker every line is stripped and appended to the log. -/
def readLoop : List Str → Bool → Option (List (Str × Str) × List Str)
  | [], _ => some ([], [])
  | l :: rest, true => (readLoop rest true).map (fun vl => (vl.1, pyStrip l :: vl.2))
  | l :: rest, false =>
    if pyStrip l = dashes80 then readLoop rest true
    else if hasCS l then
      match splitCS [] (pyStrip l) with
      | [a, b] =>
        if pyFloatParses b then
          (readLoop rest false).map (fun vl => ((a, b) :: vl.1, vl.2))
        else none
      | _ => none
    else readLoop rest false

/-- Parse one temp file's text as `read_temp_files` does. -/
def readTempFile (t : Str) : Option (List (Str × Str) × List Str) :=
  readLoop (pyReadLines t) false

/-- The four statistics lines of a temp file (main.py lines 59-62). -/
def statLines (r : SolveRecord) : List Str :=
  [lit "Objective Value: " ++ r.objVal,
   lit "Solve Time (seconds): " ++ r.runtime,
   lit "Iterations: " ++ r.iterCount,
   lit "Node Count: " ++ r.nodeCount]

/-- The lines `readlines` produces from `fileText r` (for records whose
pieces contain no newline): the variable lines, a blank line, the 80-dash
marker, the log lines — a single blank line when the log is empty, because
the empty join followed by `"\n"` yields one — and the statistics lines. -/
def tempLines (r : SolveRecord) : List Str :=
  r.vars.map varLine ++ [[], dashes80]
    ++ (if r.log.isEmpty then [([] : Str)] else r.log) ++ statLines r

/-- The log list `read_temp_files` reconstructs for a record: the original
log lines stripped — with a single empty line standing in for an empty log —
followed by the four statistics lines, which land in the log section since
they come after the 80-dash marker. -/
def readBackLog (r : SolveRecord) : List Str :=
  ((if r.log.isEmpty then [([] : Str)] else r.log) ++ statLines r).map pyStrip

/-- Executable well-formedness of one variable pair: the rendered line has
no newline, is fixed by `strip`, is not the dash marker, contains `": "`,
splits back into exactly the name and the value, and the value is a float
literal.  These capture "valid model task" for the round-trip statements. -/
def varPairOK (p : Str × Str) : Bool :=
  !((varLine p).any (· == nl))
    && pyStrip (varLine p) == varLine p
    && !(varLine p == dashes80)
    && hasCS (varLine p)
    && splitCS [] (varLine p) == [p.1, p.2]
    && pyFloatParses p.2

/-- Executable well-formedness of a whole record: every variable pair is ok
and no log line or statistics string contains a newline (log lines come from
`splitlines`, so this holds for every record the program itself produces). -/
def wfRecord (r : SolveRecord) : Bool :=
  r.vars.all varPairOK
    && r.log.all (fun l => !(l.any (· == nl)))
    && !((r.objVal ++ r.runtime ++ r.iterCount ++ r.nodeCount).any (· == nl))

/-! ## The temp directory, the batch orchestrator and the result relay -/

/-- The batch's temp directory: filenames with their text contents, listed
in creation order (the model for `os.listdir`'s enumeration; a rewrite of
an existing file keeps its position). -/
abbrev Dir := List (Str × Str)

/-- Write (create or truncate-and-rewrite) a file. -/
def writeFileD (d : Dir) (name content : Str) : Dir :=
  if d.any (fun f => f.1 == name) then
    d.map (fun f => if f.1 == name then (name, content) else f)
  else d ++ [(name, content)]

/-- `os.path.basename` for POSIX paths: the part after the last `'/'`. -/
def basename (p : Str) : Str := (splitChar '/' [] p).getLastD []

/-- The temp file name `f"temp_{os.path.basename(model_file)}.txt"`
(main.py line 52). -/
def tempName (p : Str) : Str := lit "temp_" ++ basename p ++ lit ".txt"

/-- The model name `read_temp_files` derives from a temp file name:
`temp_file.replace('temp_', '').replace('.txt', '')` (main.py line 70).
Python `replace` removes every occurrence. -/
def mangle (name : Str) : Str :=
  replaceAllL (replaceAllL name (lit "temp_") []) (lit ".txt") []

/-- What one model contributes to the batch dict: variable name/value pairs
and log lines. -/
abbrev ParsedData := List (Str × Str) × List Str

/-- The aggregated results dict, in insertion order. -/
abbrev Results := List (Str × ParsedData)

/-- Python dict assignment `results[k] = v`: an existing key keeps its
position and gets the new value; a fresh key is appended. -/
def dictInsert (m : Results) (k : Str) (v : ParsedData) : Results :=
  if m.any (fun kv => kv.1 == k) then
    m.map (fun kv => if kv.1 == k then (k, v) else kv)
  else m ++ [(k, v)]

/-- The loop of `read_temp_files` (main.py lines 68-89): for each listed
file matching `temp_*.txt`, parse it into the dict and delete it; a parse
error raises, leaving the current file and everything after it (and every
non-matching file) in place.  Returns the dict (or `none` on a raise) and
the remaining directory contents. -/
def rtfLoop : Dir → Results → Option Results × Dir
  | [], acc => (some acc, [])
  | (name, content) :: rest, acc =>
    if leadsWith (lit "temp_") name && endsWithStr (lit ".txt") name then
      match readTempFile content with
      | some pd => rtfLoop rest (dictInsert acc (mangle name) pd)
      | none => (none, (name, content) :: rest)
    else
      let (res, rem) := rtfLoop rest acc
      (res, (name, content) :: rem)

/-- `read_temp_files` (main.py lines 66-95): run the loop, then remove the
temp directory only when it is empty (line 92's guard).  The `Bool` records
whether the directory was removed. -/
def read_temp_files (d : Dir) : Option Results × Dir × Bool :=
  match rtfLoop d [] with
  | (some res, rem) => (some res, rem, rem.isEmpty)
  | (none, rem) => (none, rem, false)

/-- A task handed to the orchestrator: the model file path, and what the
external solver does with it — `some r` for a solve that completes with
captured output `r`, `none` for a solver-side error (a raised exception). -/
abbrev ModelTask := Str × Option SolveRecord

/-- The successful prefix of a task list: the records written before the
first failing solve (all of them when no solve fails). -/
def takeSuccess : List ModelTask → List (Str × SolveRecord)
  | [] => []
  | (_, none) :: _ => []
  | (p, some r) :: rest => (p, r) :: takeSuccess rest

def allSuccess (tasks : List ModelTask) : Bool := tasks.all (fun t => t.2.isSome)

/-- The `for` loop of `solve_models` (main.py lines 193-212): process the
tasks in order; each successful solve writes its temp file and then sets
`progress['value'] = i + 1`; a raising solve aborts the loop at once — the
progress assignment for that item is never reached.  Returns the directory,
the list of progress values assigned inside the loop, and whether the loop
finished without an exception. -/
def runTasks : Dir → Nat → List ModelTask → Dir × List Nat × Bool
  | d, _, [] => (d, [], true)
  | d, _, (_, none) :: _ => (d, [], false)
  | d, i, (p, some r) :: rest =>
    let d' := writeFileD d (tempName p) (fileText r)
    let (df, tr, ok) := runTasks d' (i + 1) rest
    (df, (i + 1) :: tr, ok)

/-- Outcome of one `solve_models` run. -/
structure BatchRun where
  /-- `results['data']` after the run (`none` when it was never assigned:
  an aborted loop, or a raise inside `read_temp_files`). -/
  data : Option Results
  /-- What remains of the temp directory. -/
  dirAfter : Dir
  /-- Whether the temp directory itself was removed. -/
  dirRemoved : Bool
  /-- The successive values assigned to `progress['value']`, starting with
  the reset to `0` (main.py line 187). -/
  trace : List Nat
deriving DecidableEq

/-- `solve_models` (main.py lines 175-225): run the loop; only when it
completes does line 215 call `read_temp_files` and store its dict; the
`except` branch performs no cleanup, so an aborted batch keeps its temp
files and directory. -/
def solve_models (tasks : List ModelTask) : BatchRun :=
  match runTasks [] 0 tasks with
  | (d, tr, true) =>
    match read_temp_files d with
    | (res, rem, rm) => ⟨res, rem, rm, 0 :: tr⟩
  | (d, tr, false) => ⟨none, d, false, 0 :: tr⟩

/-- The batch dict of C1's wording: the dict `read_temp_files` returns over
the batch's temp directory as the loop left it. -/
def batchDict (tasks : List ModelTask) : Option Results :=
  (read_temp_files (runTasks [] 0 tasks).1).1

/-- The final value of the progress counter after a run. -/
def finalProgress (tasks : List ModelTask) : Nat :=
  (solve_models tasks).trace.getLastD 0

/-! ## The per-model completion status shown by `solve_models` -/

inductive SolveStatus where
  | timeLimit
  | solved
deriving DecidableEq

/-- Lines 199-203 of main.py: the status reported for a model is read off
the *whole temp file text*: `"Time limit reached" in open(temp_file).read()`. -/
def modelStatus (fileContent : Str) : SolveStatus :=
  if isSubstr marker fileContent then .timeLimit else .solved

/-! ## The report writer (`save_to_excel`) -/

/-- Python `enumerate(xs, start=n)`. -/
def enumFromN : Nat → List α → List (Nat × α)
  | _, [] => []
  | n, a :: as => (n, a) :: enumFromN (n + 1) as

/-- A model's log sheet as `save_to_excel` builds it (main.py lines
116-130): `df_log.to_excel(..., startrow=1)` puts the `Log` header at excel
row 2 and entry `j` at excel row `3 + j`; row 1 carries the model-file
label; the red-bold font is applied at `cell(row=row_idx + 1, column=1)`
for `row_idx, log_entry in enumerate(data['Log'], start=2)` whenever the
entry contains the marker. -/
structure LogSheet where
  name : Str
  label : Str
  header : Str
  entries : List Str
  boldRows : List Nat
deriving DecidableEq

def boldRowsOf (entries : List Str) : List Nat :=
  (enumFromN 2 entries).filterMap
    (fun pe => if isSubstr marker pe.2 then some (pe.1 + 1) else none)

def mkLogSheet (idx : Nat) (mname : Str) (entries : List Str) : LogSheet :=
  { name := lit "Model_" ++ Nat.toDigits 10 idx ++ lit "_Log"
    label := lit "Model File: " ++ mname
    header := lit "Log"
    entries := entries
    boldRows := boldRowsOf entries }

/-- The cell text of a log sheet at (row, column 1): the label at row 1,
the header at row 2, entry `j` at row `3 + j`. -/
def logCellAt (sh : LogSheet) (row : Nat) : Option Str :=
  if row = 1 then some sh.label
  else if row = 2 then some sh.header
  else sh.entries.get? (row - 3)

structure SolSheet where
  name : Str
  label : Str
  pairs : List (Str × Str)
deriving DecidableEq

def mkSolSheet (idx : Nat) (mname : Str) (pairs : List (Str × Str)) : SolSheet :=
  { name := lit "Model_" ++ Nat.toDigits 10 idx ++ lit "_Solution"
    label := lit "Model File: " ++ mname
    pairs := pairs }

/-- The in-memory document `save_to_excel` assembles (main.py lines
97-134): per model (1-based index) a solution sheet and a log sheet, plus
the `Model_Index` sheet mapping index to model name. -/
structure XlsxDoc where
  sols : List SolSheet
  logs : List LogSheet
  indexSheet : List (Nat × Str)
deriving DecidableEq

def save_to_excel_doc (results : Results) : XlsxDoc :=
  { sols := (enumFromN 1 results).map (fun im => mkSolSheet im.1 im.2.1 im.2.2.1)
    logs := (enumFromN 1 results).map (fun im => mkLogSheet im.1 im.2.1 im.2.2.2)
    indexSheet := (enumFromN 1 results).map (fun im => (im.1, im.2.1)) }

/-- The sheets of the document in the order they are streamed into the
output file: `Model_<n>_Solution`, `Model_<n>_Log` per model, then
`Model_Index` (main.py lines 115-116 and 134). -/
def docSheetNames (results : Results) : List Str :=
  ((enumFromN 1 results).map
      (fun im => [lit "Model_" ++ Nat.toDigits 10 im.1 ++ lit "_Solution",
                  lit "Model_" ++ Nat.toDigits 10 im.1 ++ lit "_Log"])).flatten
    ++ [lit "Model_Index"]

/-- The file-level effect of `save_to_excel` (main.py line 98):
`pd.ExcelWriter(filename, ...)` opens the *target path itself* — no
temporary location, no rename — and the library streams the document into
it sheet by sheet.  `interruptAt = some k` models an I/O failure after `k`
sheets have been flushed: the prefix written so far remains at the target
path.  Sheet payloads are abstracted to their names joined by newlines;
only the prefix structure matters here. -/
def save_to_excel_write (fs : Dir) (results : Results) (filename : Str)
    (interruptAt : Option Nat) : Dir :=
  match interruptAt with
  | none => writeFileD fs filename (joinNL (docSheetNames results))
  | some k => writeFileD fs filename (joinNL ((docSheetNames results).take k))

/-- Look a file up in a directory. -/
def lookupD (d : Dir) (name : Str) : Option Str :=
  (d.find? (fun f => f.1 == name)).map (fun f => f.2)

/-! ## `save_result_to_excel` (main.py lines 228-239) -/

inductive SaveEffect where
  | warned
  | wroteFile (path : Str)
  | infoShown
deriving DecidableEq

/-- `save_result_to_excel`: if `results.get('data')` is missing or empty
(`not` of `None` and of `{}` are both true), show a warning and return
without opening the save dialog; otherwise, if the user picks a path, write
the document there and show the info box. -/
def save_result_to_excel (data : Option Results) (chosenPath : Option Str) :
    List SaveEffect :=
  match data with
  | none => [.warned]
  | some rs =>
    if rs.isEmpty then [.warned]
    else
      match chosenPath with
      | none => []
      | some p => [.wroteFile p, .infoShown]

/-! ## `CaptureOutput` (main.py lines 14-26) -/

/-- The process's stream bindings; streams are named by identifiers. -/
structure IOState where
  stdout : Nat
  stderr : Nat
deriving DecidableEq

/-- The fields `__enter__` stores on `self`: `_stdout` (the previous
`sys.stdout`) and `_stderr`.  Line 18 reads
`self._stderr = self._stderr = io.StringIO()` — both assignments store the
fresh buffer; the previous `sys.stderr` is never saved anywhere. -/
structure CaptureSelf where
  saved_stdout : Nat
  strBuf : Nat
deriving DecidableEq

/-- `__enter__` with a fresh buffer id: both streams are redirected to the
buffer. -/
def captureEnter (s : IOState) (buf : Nat) : IOState × CaptureSelf :=
  (⟨buf, buf⟩, ⟨s.stdout, buf⟩)

/-- `__exit__` (lines 23-26): `sys.stdout = self._stdout;
sys.stderr = self._stderr` — the second assignment installs the buffer, not
the original stderr. -/
def captureExit (c : CaptureSelf) : IOState :=
  ⟨c.saved_stdout, c.strBuf⟩

/-- The temp-file entry a successful task leaves in the directory. -/
def taskEntry (pr : Str × SolveRecord) : Str × Str :=
  (tempName pr.1, fileText pr.2)

/-- The dict entry `read_temp_files` builds for a successful task. -/
def resultEntry (pr : Str × SolveRecord) : Str × ParsedData :=
  (mangle (tempName pr.1), (pr.2.vars, readBackLog pr.2))

/-- A line is an acceptable variable line: its stripped form splits on
`": "` into exactly two pieces whose second piece `float()` accepts. -/
def varLineOK (l : Str) : Bool :=
  match splitCS [] (pyStrip l) with
  | [_, b] => pyFloatParses b
  | _ => false

/-- The statistics strings, once stripped, contain no marker occurrence
(true of any numeric statistics the solver reports). -/
def statsMarkerFree (r : SolveRecord) : Bool :=
  (statLines r).all (fun st => !(isSubstr marker (pyStrip st)))

/-! ## Concrete records and batches used as counterexamples and witnesses -/

/-- A small well-formed record: one variable, one log line. -/
def rA : SolveRecord :=
  ⟨[(lit "x", lit "1.0")], [lit "hello"], lit "1.0", lit "0.5", lit "3", lit "1"⟩

/-- A well-formed record with two variables and an empty log. -/
def rB : SolveRecord :=
  ⟨[(lit "y", lit "2.5"), (lit "z", lit "0.0")], [], lit "2.5", lit "0.1", lit "2", lit "0"⟩

/-- A record whose *variable name* contains the time-limit marker while its
log does not. -/
def rMk : SolveRecord :=
  ⟨[(lit "Time limit reached", lit "1.0")], [lit "ok"], lit "1.0", lit "0.5", lit "3", lit "1"⟩

/-- A record whose log contains the time-limit marker. -/
def rTL : SolveRecord :=
  ⟨[(lit "x", lit "1.0")], [lit "w Time limit reached"], lit "1.0", lit "0.5",
    lit "3", lit "1"⟩

/-- A record whose variable name contains `": "`, so its variable line
splits into three pieces. -/
def rCol : SolveRecord :=
  ⟨[(lit "a: b", lit "1.0")], [lit "ok"], lit "1.0", lit "0.5", lit "3", lit "1"⟩

/-- Two tasks with distinct basenames, both solving fine. -/
def tasksOk : List ModelTask := [(lit "a.lp", some rA), (lit "b.lp", some rB)]

/-- Two tasks whose paths differ but whose basenames collide. -/
def tasksDup : List ModelTask := [(lit "a/m.lp", some rA), (lit "b/m.lp", some rB)]

/-- A batch whose second solve raises. -/
def tasksFail : List ModelTask := [(lit "a.lp", some rA), (lit "b.lp", none)]

/-- A one-model batch result handed to the report writer. -/
def resOne : Results := [(lit "m", ([(lit "x", lit "1.0")], [lit "ok"]))]

def outPath : Str := lit "out.xlsx"

/-! ## String lemmas -/

theorem leadsWith_append_self (p s : Str) : leadsWith p (p ++ s) = true := by
  induction p with
  | nil => rfl
  | cons c cs ih => simp [leadsWith, ih]

theorem leadsWith_iff {p s : Str} : leadsWith p s = true ↔ ∃ t, s = p ++ t := by
  induction p generalizing s with
  | nil => simp [leadsWith]
  | cons c cs ih =>
    cases s with
    | nil => simp [leadsWith]
    | cons b bs =>
      simp only [leadsWith, Bool.and_eq_true, beq_iff_eq, ih, List.cons_append,
        List.cons.injEq]
      constructor
      · rintro ⟨h1, t, h2⟩
        exact ⟨t, h1.symm, h2⟩
      · rintro ⟨t, h1, h2⟩
        exact ⟨h1.symm, t, h2⟩

theorem isSubstr_iff {pat s : Str} :
    isSubstr pat s = true ↔ ∃ u v, s = u ++ pat ++ v := by
  induction s with
  | nil =>
    simp only [isSubstr, leadsWith_iff]
    constructor
    · rintro ⟨t, h⟩
      exact ⟨[], t, by simpa using h⟩
    · rintro ⟨u, v, h⟩
      rw [List.append_assoc] at h
      obtain ⟨hu, hpv⟩ := List.append_eq_nil.mp h.symm
      obtain ⟨hp, hv⟩ := List.append_eq_nil.mp hpv
      exact ⟨[], by simp [hp]⟩
  | cons c rest ih =>
    simp only [isSubstr, Bool.or_eq_true, leadsWith_iff, ih]
    constructor
    · rintro (⟨t, h⟩ | ⟨u, v, h⟩)
      · exact ⟨[], t, by simpa using h⟩
      · exact ⟨c :: u, v, by simp [h]⟩
    · rintro ⟨u, v, h⟩
      cases u with
      | nil => exact Or.inl ⟨v, by simpa using h⟩
      | cons b bs =>
        simp only [List.cons_append, List.cons.injEq] at h
        exact Or.inr ⟨bs, v, h.2⟩

theorem isSubstr_of_middle {pat u v : Str} :
    isSubstr pat (u ++ pat ++ v) = true :=
  isSubstr_iff.mpr ⟨u, v, rfl⟩

theorem isSubstr_extend {pat s : Str} (a b : Str) (h : isSubstr pat s = true) :
    isSubstr pat (a ++ s ++ b) = true := by
  obtain ⟨u, v, rfl⟩ := isSubstr_iff.mp h
  refine isSubstr_iff.mpr ⟨a ++ u, v ++ b, ?_⟩
  simp [List.append_assoc]

/-! ## Splitting `fileText` back into its lines -/

theorem splitChar_append_sep {sep : Char} {a : Str} (hna : sep ∉ a)
    (acc b : Str) :
    splitChar sep acc (a ++ sep :: b) = (acc.reverse ++ a) :: splitChar sep [] b := by
  induction a generalizing acc with
  | nil => simp [splitChar]
  | cons c cs ih =>
    have hc : ¬ c = sep := fun h => hna (h ▸ List.mem_cons_self c cs)
    have hcs : sep ∉ cs := fun h => hna (List.mem_cons_of_mem c h)
    simp [splitChar, hc, ih hcs, List.append_assoc]

theorem splitChar_no_sep {sep : Char} {a : Str} (hna : sep ∉ a) (acc : Str) :
    splitChar sep acc a = [acc.reverse ++ a] := by
  induction a generalizing acc with
  | nil => simp [splitChar]
  | cons c cs ih =>
    have hc : ¬ c = sep := fun h => hna (h ▸ List.mem_cons_self c cs)
    have hcs : sep ∉ cs := fun h => hna (List.mem_cons_of_mem c h)
    simp [splitChar, hc, ih hcs, List.append_assoc]

theorem splitChar_joinNL {ls : List Str} (hls : ∀ l ∈ ls, nl ∉ l) (rest : Str) :
    splitChar nl [] (joinNL ls ++ nl :: rest) =
      (if ls.isEmpty then [([] : Str)] else ls) ++ splitChar nl [] rest := by
  induction ls with
  | nil =>
    simpa [joinNL] using splitChar_append_sep (List.not_mem_nil nl) [] rest
  | cons l ls ih =>
    cases ls with
    | nil =>
      have h1 : nl ∉ l := hls l (List.mem_cons_self l [])
      simpa [joinNL] using splitChar_append_sep h1 [] rest
    | cons l2 ls2 =>
      have h1 : nl ∉ l := hls l (List.mem_cons_self _ _)
      have h2 : ∀ x ∈ l2 :: ls2, nl ∉ x := fun x hx => hls x (List.mem_cons_of_mem _ hx)
      have hj : joinNL (l :: l2 :: ls2) ++ nl :: rest
          = l ++ nl :: (joinNL (l2 :: ls2) ++ nl :: rest) := by
        simp [joinNL, List.append_assoc]
      rw [hj, splitChar_append_sep h1 [] _, ih h2]
      simp

theorem splitChar_varlines {vars : List (Str × Str)}
    (hv : ∀ p ∈ vars, nl ∉ varLine p) (rest : Str) :
    splitChar nl [] ((vars.map (fun p => varLine p ++ [nl])).flatten ++ rest) =
      vars.map varLine ++ splitChar nl [] rest := by
  induction vars with
  | nil => simp
  | cons p ps ih =>
    have h1 : nl ∉ varLine p := hv p (List.mem_cons_self _ _)
    have h2 : ∀ q ∈ ps, nl ∉ varLine q := fun q hq => hv q (List.mem_cons_of_mem _ hq)
    have hr : ((varLine p ++ [nl]) :: ps.map (fun q => varLine q ++ [nl])).flatten ++ rest
        = varLine p ++ nl :: ((ps.map (fun q => varLine q ++ [nl])).flatten ++ rest) := by
      simp [List.append_assoc]
    simp only [List.map_cons, hr, splitChar_append_sep h1 [] _, ih h2]
    simp

/-! ## Record well-formedness, unpacked -/

theorem varPairOK_unpack {p : Str × Str} (h : varPairOK p = true) :
    nl ∉ varLine p ∧ pyStrip (varLine p) = varLine p ∧ varLine p ≠ dashes80 ∧
      hasCS (varLine p) = true ∧ splitCS [] (varLine p) = [p.1, p.2] ∧
      pyFloatParses p.2 = true := by
  simp only [varPairOK, Bool.and_eq_true, Bool.not_eq_true', List.any_eq_false,
    beq_iff_eq, beq_eq_false_iff_ne, ne_eq] at h
  obtain ⟨⟨⟨⟨⟨h1, h2⟩, h3⟩, h4⟩, h5⟩, h6⟩ := h
  exact ⟨fun hm => h1 nl hm rfl, h2, h3, h4, h5, h6⟩

theorem wfRecord_unpack {r : SolveRecord} (h : wfRecord r = true) :
    (∀ p ∈ r.vars, varPairOK p = true) ∧ (∀ l ∈ r.log, nl ∉ l) ∧
      (∀ s ∈ statLines r, nl ∉ s) := by
  simp only [wfRecord, Bool.and_eq_true, List.all_eq_true, Bool.not_eq_true',
    List.any_eq_false, beq_eq_false_iff_ne, ne_eq] at h
  obtain ⟨⟨h1, h2⟩, h3⟩ := h
  refine ⟨h1, fun l hl hm => h2 l hl nl hm rfl, ?_⟩
  have hno := h3
  have ho : nl ∉ r.objVal := fun hm => hno nl (by simp [hm]) (by simp)
  have hrt : nl ∉ r.runtime := fun hm => hno nl (by simp [hm]) (by simp)
  have hi : nl ∉ r.iterCount := fun hm => hno nl (by simp [hm]) (by simp)
  have hnd : nl ∉ r.nodeCount := fun hm => hno nl (by simp [hm]) (by simp)
  intro s hs
  simp only [statLines, List.mem_cons, List.not_mem_nil, or_false] at hs
  rcases hs with rfl | rfl | rfl | rfl
  all_goals
    intro hm
    rcases List.mem_append.mp hm with hw | hw
  · exact absurd hw (by decide)
  · exact ho hw
  · exact absurd hw (by decide)
  · exact hrt hw
  · exact absurd hw (by decide)
  · exact hi hw
  · exact absurd hw (by decide)
  · exact hnd hw

/-! ## `readlines` over a written temp file -/

theorem pyReadLines_fileText {r : SolveRecord} (h : wfRecord r = true) :
    pyReadLines (fileText r) = tempLines r := by
  obtain ⟨hv, hl, hs⟩ := wfRecord_unpack h
  have hvn : ∀ p ∈ r.vars, nl ∉ varLine p :=
    fun p hp => (varPairOK_unpack (hv p hp)).1
  have hd : nl ∉ dashes80 := by
    intro hm
    have := List.eq_of_mem_replicate hm
    simp [nl] at this
  have hobj : nl ∉ lit "Objective Value: " ++ r.objVal := hs _ (by simp [statLines])
  have hrt : nl ∉ lit "Solve Time (seconds): " ++ r.runtime := hs _ (by simp [statLines])
  have hit : nl ∉ lit "Iterations: " ++ r.iterCount := hs _ (by simp [statLines])
  have hnd : nl ∉ lit "Node Count: " ++ r.nodeCount := hs _ (by simp [statLines])
  have hshape : fileText r =
      (r.vars.map (fun p => varLine p ++ [nl])).flatten ++
        (nl :: (dashes80 ++ nl :: (joinNL r.log ++ nl ::
          ((lit "Objective Value: " ++ r.objVal) ++ nl ::
            ((lit "Solve Time (seconds): " ++ r.runtime) ++ nl ::
              ((lit "Iterations: " ++ r.iterCount) ++ nl ::
                ((lit "Node Count: " ++ r.nodeCount) ++ nl :: []))))))) := by
    simp [fileText, List.append_assoc]
  have hsplit : splitChar nl [] (fileText r) = tempLines r ++ [[]] := by
    rw [hshape, splitChar_varlines hvn]
    rw [show (nl :: (dashes80 ++ nl :: (joinNL r.log ++ nl ::
          ((lit "Objective Value: " ++ r.objVal) ++ nl ::
            ((lit "Solve Time (seconds): " ++ r.runtime) ++ nl ::
              ((lit "Iterations: " ++ r.iterCount) ++ nl ::
                ((lit "Node Count: " ++ r.nodeCount) ++ nl :: []))))))) =
        (([] : Str) ++ nl :: (dashes80 ++ nl :: (joinNL r.log ++ nl ::
          ((lit "Objective Value: " ++ r.objVal) ++ nl ::
            ((lit "Solve Time (seconds): " ++ r.runtime) ++ nl ::
              ((lit "Iterations: " ++ r.iterCount) ++ nl ::
                ((lit "Node Count: " ++ r.nodeCount) ++ nl :: []))))))) from rfl]
    rw [splitChar_append_sep (List.not_mem_nil nl) [],
      splitChar_append_sep hd [], splitChar_joinNL hl,
      splitChar_append_sep hobj [], splitChar_append_sep hrt [],
      splitChar_append_sep hit [], splitChar_append_sep hnd []]
    simp [tempLines, statLines, splitChar, List.append_assoc]
  rw [pyReadLines, hsplit]
  simp

/-! ## The reading loop -/

theorem readLoop_true (ls : List Str) :
    readLoop ls true = some ([], ls.map pyStrip) := by
  induction ls with
  | nil => rfl
  | cons l rest ih => simp [readLoop, ih]

theorem readLoop_varStep {p : Str × Str} (h : varPairOK p = true) (rest : List Str) :
    readLoop (varLine p :: rest) false =
      (readLoop rest false).map (fun vl => (p :: vl.1, vl.2)) := by
  obtain ⟨_, h2, h3, h4, h5, h6⟩ := varPairOK_unpack h
  have hnd : ¬ pyStrip (varLine p) = dashes80 := by rw [h2]; exact h3
  simp only [readLoop, hnd, if_false, h4, if_true, h2, h5, h6, ite_true]
  rw [if_neg h3]

theorem readLoop_vars {vars : List (Str × Str)}
    (h : ∀ p ∈ vars, varPairOK p = true) (rest : List Str) :
    readLoop (vars.map varLine ++ rest) false =
      (readLoop rest false).map (fun vl => (vars ++ vl.1, vl.2)) := by
  induction vars with
  | nil =>
    simp only [List.map_nil, List.nil_append]
    cases hr : readLoop rest false with
    | none => simp
    | some vl => simp
  | cons p ps ih =>
    have h1 : varPairOK p = true := h p (List.mem_cons_self _ _)
    have h2 : ∀ q ∈ ps, varPairOK q = true := fun q hq => h q (List.mem_cons_of_mem _ hq)
    simp only [List.map_cons, List.cons_append, readLoop_varStep h1, ih h2,
      Option.map_map]
    cases hr : readLoop rest false with
    | none => simp
    | some vl => simp [Function.comp]

theorem readLoop_blankDash (rest : List Str) :
    readLoop (([] : Str) :: dashes80 :: rest) false = readLoop rest true := by
  have h1 : ¬ pyStrip ([] : Str) = dashes80 := by decide
  have h2 : hasCS ([] : Str) = false := by decide
  have h3 : pyStrip dashes80 = dashes80 := by decide
  simp only [readLoop, h1, if_false, h2, Bool.false_eq_true, h3, if_true]

/-- The round-trip core: writing a well-formed record with
`execute_model_from_file` and parsing the text back as `read_temp_files`
does recovers exactly the variable pairs, and the reconstructed log is the
stripped original log (one blank line when empty) followed by the four
statistics lines. -/
theorem readTempFile_fileText {r : SolveRecord} (h : wfRecord r = true) :
    readTempFile (fileText r) = some (r.vars, readBackLog r) := by
  obtain ⟨hv, _, _⟩ := wfRecord_unpack h
  rw [readTempFile, pyReadLines_fileText h]
  have hshape : tempLines r = r.vars.map varLine ++
      (([] : Str) :: dashes80 ::
        ((if r.log.isEmpty then [([] : Str)] else r.log) ++ statLines r)) := by
    simp [tempLines, List.append_assoc]
  rw [hshape, readLoop_vars hv, readLoop_blankDash, readLoop_true]
  simp [readBackLog]

/-! ## `strip` and the marker substring -/

/-- A stripped string sits inside the original. -/
theorem pyStrip_middle (s : Str) : ∃ u v, s = u ++ pyStrip s ++ v := by
  refine ⟨s.takeWhile isPyWS,
    (((s.dropWhile isPyWS).reverse.takeWhile isPyWS).reverse), ?_⟩
  have h1 : s = s.takeWhile isPyWS ++ s.dropWhile isPyWS :=
    (List.takeWhile_append_dropWhile isPyWS s).symm
  have h2 : s.dropWhile isPyWS = pyStrip s ++
      ((s.dropWhile isPyWS).reverse.takeWhile isPyWS).reverse := by
    have h3 : (s.dropWhile isPyWS).reverse =
        (s.dropWhile isPyWS).reverse.takeWhile isPyWS ++
          (s.dropWhile isPyWS).reverse.dropWhile isPyWS :=
      (List.takeWhile_append_dropWhile isPyWS (s.dropWhile isPyWS).reverse).symm
    calc s.dropWhile isPyWS = (s.dropWhile isPyWS).reverse.reverse := by simp
    _ = ((s.dropWhile isPyWS).reverse.takeWhile isPyWS ++
          (s.dropWhile isPyWS).reverse.dropWhile isPyWS).reverse := by rw [← h3]
    _ = pyStrip s ++ ((s.dropWhile isPyWS).reverse.takeWhile isPyWS).reverse := by
        rw [List.reverse_append]; rfl
  conv_lhs => rw [h1, h2]
  rw [List.append_assoc]

/-- A substring of the stripped string is a substring of the original. -/
theorem isSubstr_of_pyStrip {pat s : Str} (h : isSubstr pat (pyStrip s) = true) :
    isSubstr pat s = true := by
  obtain ⟨u, v, hs⟩ := pyStrip_middle s
  obtain ⟨a, b, hp⟩ := isSubstr_iff.mp h
  refine isSubstr_iff.mpr ⟨u ++ a, b ++ v, ?_⟩
  rw [hs, hp]
  simp [List.append_assoc]

theorem dropWhile_append_of_head {p : Char → Bool} {rest : Str} {c : Char}
    (hc : p c = false) (u : Str) :
    (u ++ c :: rest).dropWhile p =
      (u.dropWhile p) ++ c :: rest ∨ (u ++ c :: rest).dropWhile p = c :: rest := by
  induction u with
  | nil => right; simp [List.dropWhile, hc]
  | cons x xs ih =>
    by_cases hx : p x = true
    · simpa [List.dropWhile, hx] using ih
    · left
      simp [List.dropWhile, Bool.eq_false_iff.mpr hx, hx]

/-- Stripping preserves any substring whose first and last characters are
not whitespace (such as the time-limit marker). -/
theorem isSubstr_pyStrip_of_ends {pat s : Str} {c0 cLast : Char} {mid : Str}
    (hshape : pat = c0 :: mid ++ [cLast])
    (h0 : isPyWS c0 = false) (hL : isPyWS cLast = false)
    (h : isSubstr pat s = true) : isSubstr pat (pyStrip s) = true := by
  obtain ⟨u, v, rfl⟩ := isSubstr_iff.mp h
  have step1 : ∃ u2, (u ++ pat ++ v).dropWhile isPyWS = u2 ++ pat ++ v := by
    have hre : u ++ pat ++ v = u ++ c0 :: (mid ++ [cLast] ++ v) := by
      rw [hshape]; simp [List.append_assoc]
    rw [hre]
    rcases dropWhile_append_of_head h0 u with hcase | hcase
    · exact ⟨u.dropWhile isPyWS, by rw [hcase, hshape]; simp [List.append_assoc]⟩
    · exact ⟨[], by rw [hcase, hshape]; simp [List.append_assoc]⟩
  obtain ⟨u2, hu2⟩ := step1
  have step2 : ∃ v2, dropTrail (u2 ++ pat ++ v) = u2 ++ pat ++ v2 := by
    have hrev : (u2 ++ pat ++ v).reverse
        = v.reverse ++ cLast :: (mid.reverse ++ c0 :: u2.reverse) := by
      rw [hshape]; simp [List.append_assoc]
    rcases dropWhile_append_of_head hL v.reverse with hcase | hcase
    · refine ⟨(v.reverse.dropWhile isPyWS).reverse, ?_⟩
      rw [dropTrail, hrev, hcase, hshape]
      simp [List.append_assoc]
    · refine ⟨[], ?_⟩
      rw [dropTrail, hrev, hcase, hshape]
      simp [List.append_assoc]
  obtain ⟨v2, hv2⟩ := step2
  rw [pyStrip, hu2, hv2]
  exact isSubstr_of_middle

/-- Any member of a newline-join is a contiguous segment of it. -/
theorem joinNL_middle {l : Str} {ls : List Str} (h : l ∈ ls) :
    ∃ u v, joinNL ls = u ++ l ++ v := by
  induction ls with
  | nil => cases h
  | cons x xs ih =>
    rcases List.mem_cons.mp h with rfl | hm
    · cases xs with
      | nil => exact ⟨[], [], by simp [joinNL]⟩
      | cons y ys => exact ⟨[], nl :: joinNL (y :: ys), by simp [joinNL]⟩
    · obtain ⟨u, v, hj⟩ := ih hm
      cases xs with
      | nil => cases hm
      | cons y ys =>
        exact ⟨x ++ nl :: u, v, by simp [joinNL, hj, List.append_assoc]⟩

/-- A log line is a contiguous segment of the written temp file text. -/
theorem fileText_contains_log {r : SolveRecord} {l : Str} (h : l ∈ r.log) :
    ∃ u v, fileText r = u ++ l ++ v := by
  obtain ⟨a, b, hj⟩ := joinNL_middle h
  refine ⟨(r.vars.map (fun p => varLine p ++ [nl])).flatten ++ [nl] ++ dashes80
      ++ [nl] ++ a, b ++ ([nl] ++ lit "Objective Value: " ++ r.objVal
      ++ [nl] ++ lit "Solve Time (seconds): " ++ r.runtime
      ++ [nl] ++ lit "Iterations: " ++ r.iterCount
      ++ [nl] ++ lit "Node Count: " ++ r.nodeCount ++ [nl]), ?_⟩
  rw [fileText, hj]
  simp [List.append_assoc]

/-- Each statistics line is a contiguous segment of the temp file text. -/
theorem fileText_contains_stat {r : SolveRecord} {s : Str}
    (h : s ∈ statLines r) : ∃ u v, fileText r = u ++ s ++ v := by
  simp only [statLines, List.mem_cons, List.not_mem_nil, or_false] at h
  rcases h with rfl | rfl | rfl | rfl
  · exact ⟨(r.vars.map (fun p => varLine p ++ [nl])).flatten ++ [nl] ++ dashes80
      ++ [nl] ++ joinNL r.log ++ [nl],
      [nl] ++ lit "Solve Time (seconds): " ++ r.runtime
      ++ [nl] ++ lit "Iterations: " ++ r.iterCount
      ++ [nl] ++ lit "Node Count: " ++ r.nodeCount ++ [nl],
      by rw [fileText]; simp [List.append_assoc]⟩
  · exact ⟨(r.vars.map (fun p => varLine p ++ [nl])).flatten ++ [nl] ++ dashes80
      ++ [nl] ++ joinNL r.log ++ [nl] ++ lit "Objective Value: " ++ r.objVal ++ [nl],
      [nl] ++ lit "Iterations: " ++ r.iterCount
      ++ [nl] ++ lit "Node Count: " ++ r.nodeCount ++ [nl],
      by rw [fileText]; simp [List.append_assoc]⟩
  · exact ⟨(r.vars.map (fun p => varLine p ++ [nl])).flatten ++ [nl] ++ dashes80
      ++ [nl] ++ joinNL r.log ++ [nl] ++ lit "Objective Value: " ++ r.objVal
      ++ [nl] ++ lit "Solve Time (seconds): " ++ r.runtime ++ [nl],
      [nl] ++ lit "Node Count: " ++ r.nodeCount ++ [nl],
      by rw [fileText]; simp [List.append_assoc]⟩
  · exact ⟨(r.vars.map (fun p => varLine p ++ [nl])).flatten ++ [nl] ++ dashes80
      ++ [nl] ++ joinNL r.log ++ [nl] ++ lit "Objective Value: " ++ r.objVal
      ++ [nl] ++ lit "Solve Time (seconds): " ++ r.runtime
      ++ [nl] ++ lit "Iterations: " ++ r.iterCount ++ [nl],
      [nl], by rw [fileText]; simp [List.append_assoc]⟩

/-- A marker occurrence in some log line forces one in the temp file text. -/
theorem marker_in_fileText_of_log {r : SolveRecord} {l : Str} (hl : l ∈ r.log)
    (h : isSubstr marker l = true) : isSubstr marker (fileText r) = true := by
  obtain ⟨u, v, hft⟩ := fileText_contains_log hl
  obtain ⟨a, b, hp⟩ := isSubstr_iff.mp h
  refine isSubstr_iff.mpr ⟨u ++ a, b ++ v, ?_⟩
  rw [hft, hp]; simp [List.append_assoc]

/-- A marker occurrence in an entry of the reconstructed log forces one in
the temp file text (the entries are stripped log lines, the blank
placeholder, or stripped statistics lines — each inside the file). -/
theorem marker_in_fileText_of_readBack {r : SolveRecord} {e : Str}
    (he : e ∈ readBackLog r) (h : isSubstr marker e = true) :
    isSubstr marker (fileText r) = true := by
  simp only [readBackLog, List.mem_map, List.mem_append] at he
  obtain ⟨x, hx, rfl⟩ := he
  have hx2 : isSubstr marker x = true := isSubstr_of_pyStrip h
  rcases hx with hlog | hstat
  · by_cases hemp : r.log.isEmpty
    · rw [if_pos hemp] at hlog
      simp only [List.mem_cons, List.not_mem_nil, or_false] at hlog
      subst hlog
      cases hx2
    · rw [if_neg hemp] at hlog
      exact marker_in_fileText_of_log hlog hx2
  · obtain ⟨u, v, hft⟩ := fileText_contains_stat hstat
    obtain ⟨a, b, hp⟩ := isSubstr_iff.mp hx2
    refine isSubstr_iff.mpr ⟨u ++ a, b ++ v, ?_⟩
    rw [hft, hp]; simp [List.append_assoc]

/-! ## Orchestrator lemmas -/

theorem runTasks_dir (ts : List ModelTask) :
    ∀ d i, (runTasks d i ts).1 =
      (takeSuccess ts).foldl (fun dd pr => writeFileD dd (tempName pr.1) (fileText pr.2)) d := by
  induction ts with
  | nil => intro d i; rfl
  | cons t rest ih =>
    intro d i
    obtain ⟨p, r⟩ := t
    cases r with
    | none => rfl
    | some r => simpa [runTasks, takeSuccess] using ih _ (i + 1)

theorem runTasks_trace (ts : List ModelTask) :
    ∀ d i, (runTasks d i ts).2.1 = List.range' (i + 1) (takeSuccess ts).length := by
  induction ts with
  | nil => intro d i; rfl
  | cons t rest ih =>
    intro d i
    obtain ⟨p, r⟩ := t
    cases r with
    | none => rfl
    | some r =>
      simp only [runTasks, takeSuccess, List.length_cons, List.range'_succ]
      rw [show i + 1 + 1 = i + 2 from rfl]
      simpa using ih (writeFileD d (tempName p) (fileText r)) (i + 1)

theorem runTasks_ok (ts : List ModelTask) :
    ∀ d i, (runTasks d i ts).2.2 = allSuccess ts := by
  induction ts with
  | nil => intro d i; rfl
  | cons t rest ih =>
    intro d i
    obtain ⟨p, r⟩ := t
    cases r with
    | none => simp [runTasks, allSuccess]
    | some r => simpa [runTasks, allSuccess] using ih _ (i + 1)

theorem takeSuccess_length_le (ts : List ModelTask) :
    (takeSuccess ts).length ≤ ts.length := by
  induction ts with
  | nil => simp [takeSuccess]
  | cons t rest ih =>
    obtain ⟨p, r⟩ := t
    cases r with
    | none => simp [takeSuccess]
    | some r => simpa [takeSuccess] using ih

theorem takeSuccess_of_allSuccess {ts : List ModelTask} (h : allSuccess ts = true) :
    (takeSuccess ts).length = ts.length := by
  induction ts with
  | nil => rfl
  | cons t rest ih =>
    obtain ⟨p, r⟩ := t
    simp only [allSuccess, List.all_cons, Bool.and_eq_true] at h
    cases r with
    | none => simp at h
    | some r =>
      have := ih (by simpa [allSuccess] using h.2)
      simpa [takeSuccess] using this

/-- A fresh name is appended. -/
theorem writeFileD_fresh {d : Dir} {name : Str}
    (h : ∀ f ∈ d, f.1 ≠ name) (content : Str) :
    writeFileD d name content = d ++ [(name, content)] := by
  have hx : d.any (fun f => f.1 == name) = false := by
    simp only [List.any_eq_false, beq_iff_eq]
    exact fun f hf => h f hf
  simp [writeFileD, hx]

theorem foldl_writeFileD {l : List (Str × SolveRecord)} :
    ∀ d, ((l.map (fun pr => tempName pr.1)).Nodup) →
    (∀ n ∈ l.map (fun pr => tempName pr.1), ∀ f ∈ d, f.1 ≠ n) →
    l.foldl (fun dd pr => writeFileD dd (tempName pr.1) (fileText pr.2)) d =
      d ++ l.map taskEntry := by
  induction l with
  | nil => intro d _ _; simp
  | cons pr rest ih =>
    intro d hnd hfresh
    simp only [List.map_cons, List.nodup_cons] at hnd
    have h1 : ∀ f ∈ d, f.1 ≠ tempName pr.1 :=
      fun f hf => hfresh (tempName pr.1)
        (by simp only [List.map_cons, List.mem_cons]; exact Or.inl trivial) f hf
    simp only [List.foldl_cons, writeFileD_fresh h1]
    rw [ih (d ++ [(tempName pr.1, fileText pr.2)]) hnd.2 ?hfresh]
    · simp [taskEntry, List.append_assoc]
    case hfresh =>
      intro n hn f hf
      rcases List.mem_append.mp hf with hf1 | hf2
      · exact hfresh n (by simp only [List.map_cons, List.mem_cons]; exact Or.inr hn) f hf1
      · simp only [List.mem_singleton] at hf2
        subst hf2
        intro hcontra
        exact hnd.1 (by rw [show tempName pr.1 = n from hcontra]; exact hn)

theorem tempName_starts (p : Str) : leadsWith (lit "temp_") (tempName p) = true := by
  rw [tempName]
  exact leadsWith_append_self _ _

theorem tempName_ends (p : Str) : endsWithStr (lit ".txt") (tempName p) = true := by
  rw [endsWithStr, tempName, List.reverse_append]
  exact leadsWith_append_self _ _

theorem dictInsert_fresh {m : Results} {k : Str}
    (h : ∀ kv ∈ m, kv.1 ≠ k) (v : ParsedData) :
    dictInsert m k v = m ++ [(k, v)] := by
  have hx : m.any (fun kv => kv.1 == k) = false := by
    simp only [List.any_eq_false, beq_iff_eq]
    exact fun kv hkv => h kv hkv
  simp [dictInsert, hx]

/-- `read_temp_files`'s loop over a directory of well-formed temp files
with distinct derived model names: every file parses, is removed, and
contributes its entry in listing order after the accumulator. -/
theorem rtfLoop_clean {l : List (Str × SolveRecord)} :
    ∀ acc, (∀ pr ∈ l, wfRecord pr.2 = true) →
    ((l.map (fun pr => mangle (tempName pr.1))).Nodup) →
    (∀ k ∈ l.map (fun pr => mangle (tempName pr.1)), ∀ kv ∈ acc, kv.1 ≠ k) →
    rtfLoop (l.map taskEntry) acc = (some (acc ++ l.map resultEntry), []) := by
  induction l with
  | nil => intro acc _ _ _; simp [rtfLoop]
  | cons pr rest ih =>
    intro acc hwf hnd hfresh
    simp only [List.map_cons, List.nodup_cons] at hnd
    have hkey : ∀ kv ∈ acc, kv.1 ≠ mangle (tempName pr.1) :=
      fun kv hkv => hfresh (mangle (tempName pr.1))
        (by simp only [List.map_cons, List.mem_cons]; exact Or.inl trivial) kv hkv
    have hwf1 : wfRecord pr.2 = true := hwf pr (List.mem_cons_self _ _)
    simp only [List.map_cons, taskEntry, rtfLoop, tempName_starts, tempName_ends,
      Bool.and_self, readTempFile_fileText hwf1, dictInsert_fresh hkey, if_true]
    rw [ih (acc ++ [(mangle (tempName pr.1), (pr.2.vars, readBackLog pr.2))])
      (fun q hq => hwf q (List.mem_cons_of_mem _ hq)) hnd.2 ?fresh]
    · simp [resultEntry, List.append_assoc]
    case fresh =>
      intro k hk kv hkv
      rcases List.mem_append.mp hkv with hkv1 | hkv2
      · exact hfresh k (by simp only [List.map_cons, List.mem_cons]; exact Or.inr hk) kv hkv1
      · simp only [List.mem_singleton] at hkv2
        subst hkv2
        intro hcontra
        exact hnd.1 (by rw [show mangle (tempName pr.1) = k from hcontra]; exact hk)

/-- `read_temp_files` over such a directory: the full dict in order, every
temp file removed, and the directory itself removed. -/
theorem read_temp_files_clean {l : List (Str × SolveRecord)}
    (hwf : ∀ pr ∈ l, wfRecord pr.2 = true)
    (hnd : (l.map (fun pr => mangle (tempName pr.1))).Nodup) :
    read_temp_files (l.map taskEntry) = (some (l.map resultEntry), [], true) := by
  have h := rtfLoop_clean [] hwf hnd
    (fun k _ kv hkv => absurd hkv (List.not_mem_nil kv))
  simp only [List.nil_append] at h
  simp [read_temp_files, h]

/-! ## What a successful read forces about variable lines (claim C10) -/

theorem readLoop_none_of_badVar {ls : List Str} :
    ∀ {l : Str}, l ∈ ls.takeWhile (fun x => !(pyStrip x == dashes80)) →
    hasCS l = true → varLineOK l = false → readLoop ls false = none := by
  induction ls with
  | nil => intro l hl; cases hl
  | cons x rest ih =>
    intro l hl hcs hbad
    rw [List.takeWhile_cons] at hl
    by_cases hd : pyStrip x = dashes80
    · have hbeq : (pyStrip x == dashes80) = true := beq_iff_eq.mpr hd
      rw [if_neg (by rw [hbeq]; simp)] at hl
      exact absurd hl (List.not_mem_nil l)
    · have hbeq : (pyStrip x == dashes80) = false := beq_eq_false_iff_ne.mpr hd
      rw [if_pos (by rw [hbeq]; rfl)] at hl
      rcases List.mem_cons.mp hl with rfl | hmem
      · simp only [readLoop, hd, if_false, hcs, if_true]
        rw [varLineOK] at hbad
        rcases hsp : splitCS [] (pyStrip l) with _ | ⟨a, _ | ⟨b, _ | ⟨c, rest2⟩⟩⟩
        · rfl
        · rfl
        · rw [hsp] at hbad
          simp only [] at hbad
          simp [hbad]
        · rfl
      · have hnone := ih hmem hcs hbad
        simp only [readLoop, hd, if_false]
        by_cases hx : hasCS x = true
        · rw [if_pos hx]
          rcases hsp : splitCS [] (pyStrip x) with _ | ⟨a, _ | ⟨b, _ | _⟩⟩ <;> simp [hnone]
        · rw [if_neg (by simpa using hx)]
          exact hnone

theorem readTempFile_none_of_badVar {t : Str} {l : Str}
    (hl : l ∈ (pyReadLines t).takeWhile (fun x => !(pyStrip x == dashes80)))
    (hcs : hasCS l = true) (hbad : varLineOK l = false) :
    readTempFile t = none :=
  readLoop_none_of_badVar hl hcs hbad

/-- Success of the whole loop forces success on each matching file. -/
theorem rtfLoop_some_forces {d : Dir} :
    ∀ {acc res rem}, rtfLoop d acc = (some res, rem) →
    ∀ fc ∈ d, (leadsWith (lit "temp_") fc.1 && endsWithStr (lit ".txt") fc.1) = true →
    readTempFile fc.2 ≠ none := by
  induction d with
  | nil => intro acc res rem _ fc hfc; cases hfc
  | cons f rest ih =>
    intro acc res rem hloop fc hfc hpat
    obtain ⟨name, content⟩ := f
    rcases List.mem_cons.mp hfc with rfl | hmem
    · rw [rtfLoop, if_pos hpat] at hloop
      intro hnone
      rw [hnone] at hloop
      cases hloop
    · by_cases hp : (leadsWith (lit "temp_") name && endsWithStr (lit ".txt") name) = true
      · rw [rtfLoop, if_pos hp] at hloop
        cases hread : readTempFile content with
        | none => rw [hread] at hloop; cases hloop
        | some pd =>
          rw [hread] at hloop
          exact ih hloop fc hmem hpat
      · rw [rtfLoop, if_neg hp] at hloop
        rcases hrec : rtfLoop rest acc with ⟨res2, rem2⟩
        cases res2 with
        | none =>
          rw [hrec] at hloop
          simp at hloop
        | some r2 => exact ih hrec fc hmem hpat

/-- A matching file whose text does not parse makes `read_temp_files`
raise: the whole dict is lost. -/
theorem read_temp_files_none_of_bad {d : Dir} {fc : Str × Str} (hfc : fc ∈ d)
    (hpat : (leadsWith (lit "temp_") fc.1 && endsWithStr (lit ".txt") fc.1) = true)
    (hbad : readTempFile fc.2 = none) : (read_temp_files d).1 = none := by
  rcases hloop : rtfLoop d [] with ⟨res, rem⟩
  cases res with
  | none => simp [read_temp_files, hloop]
  | some r => exact absurd hbad (rtfLoop_some_forces hloop fc hfc hpat)

/-! ## Progress-trace lemmas (claim C5) -/

theorem chainLe_range' (s n : Nat) : List.Chain' (· ≤ ·) (List.range' s n) := by
  induction n generalizing s with
  | zero => simp
  | succ n ih =>
    rw [List.range'_succ]
    cases n with
    | zero => simp
    | succ m =>
      rw [List.range'_succ, List.chain'_cons]
      refine ⟨by omega, ?_⟩
      have h2 := ih (s + 1)
      rwa [List.range'_succ] at h2

theorem getLastD_range' :
    ∀ n s d, (List.range' s (n + 1)).getLastD d = s + n := by
  intro n
  induction n with
  | zero => intro s d; simp
  | succ m ih =>
    intro s d
    rw [List.range'_succ, List.getLastD_cons, ih (s + 1) s]
    omega

/-! ## Directory lookup lemmas (claim C7) -/

theorem find?_mapWrite_self (d : Dir) (name content : Str)
    (h : d.any (fun f => f.1 == name) = true) :
    (d.map (fun f => if f.1 == name then (name, content) else f)).find?
      (fun f => f.1 == name) = some (name, content) := by
  induction d with
  | nil => cases h
  | cons g rest ih =>
    cases hg : (g.1 == name) with
    | true =>
      simp only [List.map_cons, hg, if_true]
      rw [List.find?_cons_of_pos _ (by simp)]
    | false =>
      simp only [List.any_cons, hg, Bool.false_or] at h
      simp only [List.map_cons, hg, Bool.false_eq_true, if_false]
      rw [List.find?_cons_of_neg _ (by simp [hg])]
      exact ih h

theorem find?_mapWrite_other (d : Dir) (name content q : Str) (hq : q ≠ name) :
    (d.map (fun f => if f.1 == name then (name, content) else f)).find?
      (fun f => f.1 == q) = d.find? (fun f => f.1 == q) := by
  induction d with
  | nil => rfl
  | cons g rest ih =>
    cases hg : (g.1 == name) with
    | true =>
      have hg2 : g.1 = name := beq_iff_eq.mp hg
      simp only [List.map_cons, hg, if_true]
      rw [List.find?_cons_of_neg _ (by simp [Ne.symm hq]),
        List.find?_cons_of_neg _ (by simp [hg2, Ne.symm hq])]
      exact ih
    | false =>
      simp only [List.map_cons, hg, Bool.false_eq_true, if_false]
      cases hgq : (g.1 == q) with
      | true =>
        rw [List.find?_cons_of_pos _ (by simp [hgq]),
          List.find?_cons_of_pos _ (by simp [hgq])]
      | false =>
        rw [List.find?_cons_of_neg _ (by simp [hgq]),
          List.find?_cons_of_neg _ (by simp [hgq])]
        exact ih

theorem lookupD_writeFileD_self (d : Dir) (name content : Str) :
    lookupD (writeFileD d name content) name = some content := by
  by_cases h : d.any (fun f => f.1 == name) = true
  · rw [writeFileD, if_pos h, lookupD, find?_mapWrite_self d name content h]
    rfl
  · rw [writeFileD, if_neg h, lookupD, List.find?_append]
    have hnone : d.find? (fun f => f.1 == name) = none := by
      rw [List.find?_eq_none]
      intro f hf hbeq
      exact h (List.any_eq_true.mpr ⟨f, hf, hbeq⟩)
    rw [hnone]
    simp [List.find?]

theorem lookupD_writeFileD_other (d : Dir) (name content q : Str) (hq : q ≠ name) :
    lookupD (writeFileD d name content) q = lookupD d q := by
  by_cases h : d.any (fun f => f.1 == name) = true
  · rw [writeFileD, if_pos h, lookupD, find?_mapWrite_other d name content q hq, lookupD]
  · rw [writeFileD, if_neg h, lookupD, lookupD, List.find?_append]
    cases hfind : List.find? (fun f => f.1 == q) d with
    | some f => rfl
    | none =>
      have h2 : List.find? (fun f => f.1 == q) [(name, content)] = none := by
        rw [List.find?_cons_of_neg _ (by simp [Ne.symm hq])]
        rfl
      rw [h2]
      rfl

/-! ## Whole-run lemmas -/

theorem solve_models_trace (tasks : List ModelTask) :
    (solve_models tasks).trace = 0 :: List.range' 1 (takeSuccess tasks).length := by
  rcases hrt : runTasks [] 0 tasks with ⟨d, tr, ok⟩
  have htr : tr = List.range' 1 (takeSuccess tasks).length := by
    have h := runTasks_trace tasks [] 0
    rw [hrt] at h
    exact h
  cases ok with
  | true =>
    rcases hread : read_temp_files d with ⟨res, rem, rm⟩
    simp [solve_models, hrt, hread, htr]
  | false => simp [solve_models, hrt, htr]

theorem finalProgress_eq (tasks : List ModelTask) :
    finalProgress tasks = (takeSuccess tasks).length := by
  rw [finalProgress, solve_models_trace]
  cases hk : (takeSuccess tasks).length with
  | zero => simp
  | succ m =>
    rw [List.getLastD_cons, getLastD_range' m 1 0]
    omega

/-- The temp directory `runTasks` builds from an empty start, for a batch
with collision-free derived names. -/
theorem runTasks_dir_entries {tasks : List ModelTask}
    (hnd : ((takeSuccess tasks).map (fun pr => mangle (tempName pr.1))).Nodup) :
    (runTasks [] 0 tasks).1 = (takeSuccess tasks).map taskEntry := by
  have hndT : ((takeSuccess tasks).map (fun pr => tempName pr.1)).Nodup := by
    have hcomp : (takeSuccess tasks).map (fun pr => mangle (tempName pr.1)) =
        ((takeSuccess tasks).map (fun pr => tempName pr.1)).map mangle := by
      rw [List.map_map]
      rfl
    rw [hcomp] at hnd
    exact hnd.of_map
  rw [runTasks_dir]
  rw [foldl_writeFileD [] hndT (fun n _ f hf => absurd hf (List.not_mem_nil f))]
  rfl

theorem solve_models_success {tasks : List ModelTask}
    (hall : allSuccess tasks = true)
    (hwf : ∀ pr ∈ takeSuccess tasks, wfRecord pr.2 = true)
    (hnd : ((takeSuccess tasks).map (fun pr => mangle (tempName pr.1))).Nodup) :
    (solve_models tasks).data = some ((takeSuccess tasks).map resultEntry) ∧
      (solve_models tasks).dirAfter = [] ∧ (solve_models tasks).dirRemoved = true := by
  rcases hrt : runTasks [] 0 tasks with ⟨d, tr, ok⟩
  have hok : ok = true := by
    have h := runTasks_ok tasks [] 0
    rw [hrt] at h
    simp only at h
    rw [h, hall]
  subst hok
  have hd : d = (takeSuccess tasks).map taskEntry := by
    have h := runTasks_dir_entries hnd
    rw [hrt] at h
    exact h
  subst hd
  simp [solve_models, hrt, read_temp_files_clean hwf hnd]

theorem solve_models_data_none {tasks : List ModelTask}
    (h : allSuccess tasks = false) : (solve_models tasks).data = none := by
  rcases hrt : runTasks [] 0 tasks with ⟨d, tr, ok⟩
  have hok : ok = false := by
    have h2 := runTasks_ok tasks [] 0
    rw [hrt] at h2
    simp only at h2
    rw [h2, h]
  subst hok
  simp [solve_models, hrt]

theorem allSuccess_append_fail (pre : List ModelTask) (p : Str)
    (post : List ModelTask) : allSuccess (pre ++ (p, none) :: post) = false := by
  simp [allSuccess]

theorem takeSuccess_append_fail {pre : List ModelTask} (p : Str)
    (post : List ModelTask) (h : allSuccess pre = true) :
    (takeSuccess (pre ++ (p, none) :: post)).length = pre.length := by
  induction pre with
  | nil => simp [takeSuccess]
  | cons t rest ih =>
    obtain ⟨q, orec⟩ := t
    simp only [allSuccess, List.all_cons, Bool.and_eq_true] at h
    cases orec with
    | none => simp at h
    | some r =>
      have h2 := ih (by simpa [allSuccess] using h.2)
      simpa [takeSuccess] using h2

/-! ## Bold rows of the log sheet (claim C3) -/

theorem mem_enumFromN_snd {pe : Nat × Str} :
    ∀ {n : Nat} {entries : List Str}, pe ∈ enumFromN n entries → pe.2 ∈ entries := by
  intro n entries
  induction entries generalizing n with
  | nil => intro h; cases h
  | cons e es ih =>
    intro h
    rcases List.mem_cons.mp h with rfl | hmem
    · simp
    · exact List.mem_cons_of_mem _ (ih hmem)

theorem boldRowsOf_eq_nil {entries : List Str}
    (h : ∀ e ∈ entries, isSubstr marker e = false) : boldRowsOf entries = [] := by
  rw [boldRowsOf, List.filterMap_eq_nil_iff]
  intro pe hpe
  rw [if_neg (by rw [h pe.2 (mem_enumFromN_snd hpe)]; simp)]

theorem mem_boldAux (row : Nat) :
    ∀ (entries : List Str) (n : Nat),
    (row ∈ (enumFromN n entries).filterMap
        (fun pe => if isSubstr marker pe.2 then some (pe.1 + 1) else none) ↔
      ∃ j e, entries.get? j = some e ∧ isSubstr marker e = true ∧ row = n + j + 1) := by
  intro entries
  induction entries with
  | nil => intro n; simp [enumFromN]
  | cons e es ih =>
    intro n
    rw [enumFromN, List.filterMap_cons]
    by_cases hm : isSubstr marker e = true
    · rw [if_pos hm]
      simp only [List.mem_cons, ih (n + 1)]
      constructor
      · rintro (rfl | ⟨j, e2, hget, hmark, rfl⟩)
        · exact ⟨0, e, rfl, hm, by omega⟩
        · exact ⟨j + 1, e2, hget, hmark, by omega⟩
      · rintro ⟨j, e2, hget, hmark, rfl⟩
        cases j with
        | zero =>
          left
          simp only [List.get?] at hget
          omega
        | succ j2 =>
          right
          exact ⟨j2, e2, hget, hmark, by omega⟩
    · rw [if_neg hm]
      rw [ih (n + 1)]
      constructor
      · rintro ⟨j, e2, hget, hmark, rfl⟩
        exact ⟨j + 1, e2, hget, hmark, by omega⟩
      · rintro ⟨j, e2, hget, hmark, rfl⟩
        cases j with
        | zero =>
          simp only [List.get?, Option.some.injEq] at hget
          subst hget
          exact absurd hmark hm
        | succ j2 =>
          exact ⟨j2, e2, hget, hmark, by omega⟩

theorem boldRowsOf_iff {entries : List Str} {row : Nat} :
    row ∈ boldRowsOf entries ↔
      ∃ j e, entries.get? j = some e ∧ isSubstr marker e = true ∧ row = j + 3 := by
  rw [boldRowsOf, mem_boldAux row entries 2]
  constructor
  · rintro ⟨j, e, hget, hmark, rfl⟩
    exact ⟨j, e, hget, hmark, by omega⟩
  · rintro ⟨j, e, hget, hmark, rfl⟩
    exact ⟨j, e, hget, hmark, by omega⟩

/-- In a batch with collision-free derived names, exactly one dict entry
carries a given task's key. -/
theorem countP_entry_of_nodup :
    ∀ ts : List (Str × SolveRecord),
    ((ts.map (fun pr => mangle (tempName pr.1))).Nodup) → ∀ pr ∈ ts,
      (ts.map resultEntry).countP
        (fun kv => kv.1 == mangle (tempName pr.1)) = 1 := by
  intro ts
  induction ts with
  | nil => intro _ pr hpr; cases hpr
  | cons t rest ih =>
    intro hnd pr hpr
    simp only [List.map_cons, List.nodup_cons] at hnd
    rcases List.mem_cons.mp hpr with rfl | hmem
    · rw [List.map_cons, List.countP_cons, if_pos (by simp [resultEntry])]
      have hz : (rest.map resultEntry).countP
          (fun kv => kv.1 == mangle (tempName pr.1)) = 0 := by
        rw [List.countP_eq_zero]
        intro kv hkv
        obtain ⟨q, hq, rfl⟩ := List.mem_map.mp hkv
        simp only [resultEntry, beq_iff_eq]
        intro hgq
        exact hnd.1 (List.mem_map.mpr ⟨q, hq, hgq⟩)
      omega
    · rw [List.map_cons, List.countP_cons, if_neg ?hne, ih hnd.2 pr hmem]
      case hne =>
        simp only [resultEntry, beq_iff_eq]
        intro hgt
        exact hnd.1 (List.mem_map.mpr ⟨pr, hmem, hgt.symm⟩)

/-! ## The claims -/

/-- Claim C1 (corrected).  The claim as frozen fails: temp-file names are
derived from basenames and dict keys from a global `replace`, so distinct
tasks can collide and overwrite each other (see `c1_basename_collision`).
Amended: whenever the derived model names of the successfully processed
tasks are pairwise distinct, the dict returned by `read_temp_files` over
the batch's temp directory has exactly one entry per task processed before
the first failure (all `N` when none fails), keyed and ordered by input
(processing) order. -/
theorem c1_batch_entries (tasks : List ModelTask)
    (hwf : ∀ pr ∈ takeSuccess tasks, wfRecord pr.2 = true)
    (hnd : ((takeSuccess tasks).map (fun pr => mangle (tempName pr.1))).Nodup) :
    batchDict tasks = some ((takeSuccess tasks).map resultEntry) ∧
    ((batchDict tasks).getD []).length = (takeSuccess tasks).length ∧
    ((batchDict tasks).getD []).map Prod.fst =
      (takeSuccess tasks).map (fun pr => mangle (tempName pr.1)) := by
  have h1 : batchDict tasks = some ((takeSuccess tasks).map resultEntry) := by
    rw [batchDict, runTasks_dir_entries hnd, read_temp_files_clean hwf hnd]
  refine ⟨h1, ?_, ?_⟩
  · rw [h1]
    simp
  · rw [h1]
    simp only [Option.getD_some, List.map_map]
    rfl

/-- Claim C1's counterexample: two valid tasks whose paths differ only in
the directory produce a one-entry batch dict — the second temp file
overwrites the first — refuting "exactly N entries" as stated. -/
theorem c1_basename_collision :
    tasksDup.length = 2 ∧ allSuccess tasksDup = true ∧
    ((batchDict tasksDup).getD []).length = 1 := by decide

theorem c1_batch_entries_witness :
    ((batchDict tasksOk).getD []).length = (takeSuccess tasksOk).length :=
  (c1_batch_entries tasksOk (by decide) (by decide)).2.1

/-- Claim C2 (corrected).  The variable/value pairs round-trip exactly, but
the log does not: the four statistics lines written after the 80-dash
marker are read back as part of the log (and an empty log reads back as one
blank line), so the read-back log has `(original count) + 4` lines (5 for
an empty log) — see `c2_log_count_mismatch`.  Completion status — presence
of the marker substring in the log — is preserved, given that the
statistics strings do not themselves contain the marker. -/
theorem c2_roundtrip_amended (r : SolveRecord) (hwf : wfRecord r = true)
    (hstats : statsMarkerFree r = true) :
    readTempFile (fileText r) = some (r.vars, readBackLog r) ∧
    (readBackLog r).length = (if r.log.isEmpty then 1 else r.log.length) + 4 ∧
    ((∃ l ∈ r.log, isSubstr marker l = true) ↔
      (∃ e ∈ readBackLog r, isSubstr marker e = true)) := by
  refine ⟨readTempFile_fileText hwf, ?_, ?_, ?_⟩
  · rw [readBackLog]
    by_cases h : r.log.isEmpty = true <;> simp [h, statLines]
  · rintro ⟨l, hl, hm⟩
    have hne : r.log.isEmpty = false := by
      cases hlog : r.log with
      | nil => rw [hlog] at hl; cases hl
      | cons a as => simp
    refine ⟨pyStrip l, ?_, ?_⟩
    · rw [readBackLog]
      refine List.mem_map.mpr ⟨l, List.mem_append_left _ ?_, rfl⟩
      rw [hne]
      simpa using hl
    · exact isSubstr_pyStrip_of_ends
        (by decide : marker = 'T' :: (lit "ime limit reache" ++ [ 'd']))
        (by decide) (by decide) hm
  · rintro ⟨e, he, hm⟩
    rw [readBackLog] at he
    obtain ⟨x, hx, rfl⟩ := List.mem_map.mp he
    rcases List.mem_append.mp hx with hx1 | hx2
    · by_cases hemp : r.log.isEmpty = true
      · rw [if_pos hemp] at hx1
        simp only [List.mem_cons, List.not_mem_nil, or_false] at hx1
        subst hx1
        exact absurd hm (by decide)
      · rw [if_neg hemp] at hx1
        exact ⟨x, hx1, isSubstr_of_pyStrip hm⟩
    · exfalso
      simp only [statsMarkerFree, List.all_eq_true] at hstats
      have h2 := hstats x hx2
      rw [hm] at h2
      cases h2

/-- Claim C2's counterexample: for a record with one log line, read-back
yields a five-line log — the count is not preserved. -/
theorem c2_log_count_mismatch :
    readTempFile (fileText rA) = some (rA.vars, readBackLog rA) ∧
    rA.log.length = 1 ∧ (readBackLog rA).length = 5 := by decide

theorem c2_roundtrip_witness :
    readTempFile (fileText rB) = some (rB.vars, readBackLog rB) :=
  (c2_roundtrip_amended rB (by decide) (by decide)).1

/-- Claim C3 (corrected).  The reported status is read off the *whole* temp
file text, not the log, so a variable name containing the marker yields
time-limit status with a clean log (see `c3_varname_marker`).  Amended: a
marker occurrence in the log does force time-limit status; when the whole
file lacks the marker, the status is "solved" and no log-sheet row is
emphasized; and the emphasized rows are exactly the data rows (excel row
`3 + j` for entry `j`) whose text contains the marker. -/
theorem c3_status_emphasis (r : SolveRecord) (idx : Nat) (mn : Str) :
    ((∃ l ∈ r.log, isSubstr marker l = true) →
      modelStatus (fileText r) = SolveStatus.timeLimit) ∧
    (isSubstr marker (fileText r) = false →
      modelStatus (fileText r) = SolveStatus.solved ∧
        (mkLogSheet idx mn (readBackLog r)).boldRows = []) ∧
    (∀ row, row ∈ (mkLogSheet idx mn (readBackLog r)).boldRows ↔
      ∃ e, 3 ≤ row ∧
        logCellAt (mkLogSheet idx mn (readBackLog r)) row = some e ∧
        isSubstr marker e = true) := by
  refine ⟨?_, ?_, ?_⟩
  · rintro ⟨l, hl, hm⟩
    rw [modelStatus, if_pos (marker_in_fileText_of_log hl hm)]
  · intro h
    constructor
    · rw [modelStatus, if_neg (by rw [h]; simp)]
    · show boldRowsOf (readBackLog r) = []
      refine boldRowsOf_eq_nil (fun e he => ?_)
      cases hcase : isSubstr marker e with
      | false => rfl
      | true =>
        have := marker_in_fileText_of_readBack he hcase
        rw [h] at this
        cases this
  · intro row
    show row ∈ boldRowsOf (readBackLog r) ↔ _
    rw [boldRowsOf_iff]
    constructor
    · rintro ⟨j, e, hget, hmark, rfl⟩
      refine ⟨e, by omega, ?_, hmark⟩
      rw [logCellAt, if_neg (by omega), if_neg (by omega)]
      show (readBackLog r).get? (j + 3 - 3) = some e
      simpa using hget
    · rintro ⟨e, h3, hcell, hmark⟩
      rw [logCellAt, if_neg (by omega), if_neg (by omega)] at hcell
      exact ⟨row - 3, e, hcell, hmark, by omega⟩

/-- Claim C3's counterexample: a record whose variable name contains the
marker while every log line lacks it is still reported as time-limit. -/
theorem c3_varname_marker :
    modelStatus (fileText rMk) = SolveStatus.timeLimit ∧
    rMk.log = [lit "ok"] ∧ isSubstr marker (lit "ok") = false := by decide

theorem c3_status_witness :
    modelStatus (fileText rTL) = SolveStatus.timeLimit :=
  (c3_status_emphasis rTL 1 (lit "m")).1 (by decide)

/-- Claim C4 (corrected).  On a fully successful batch with collision-free
derived names, each task owns exactly one entry of the stored batch result.
But the frozen claim's failure half is false: a raising solve aborts the
loop before the progress assignment, so progress is *not* advanced for the
failed item (see `c4_failed_no_advance`), and — the batch result never
being stored — the prior successes yield no stored records either.
Amended: a failing task leaves `results['data']` unset and the progress
counter at the number of tasks processed before it. -/
theorem c4_one_record_progress (tasks : List ModelTask)
    (hwf : ∀ pr ∈ takeSuccess tasks, wfRecord pr.2 = true)
    (hnd : ((takeSuccess tasks).map (fun pr => mangle (tempName pr.1))).Nodup) :
    (allSuccess tasks = true →
      ∀ pr ∈ takeSuccess tasks,
        ((solve_models tasks).data.getD []).countP
          (fun kv => kv.1 == mangle (tempName pr.1)) = 1) ∧
    (∀ pre p post, tasks = pre ++ (p, none) :: post → allSuccess pre = true →
      (solve_models tasks).data = none ∧ finalProgress tasks = pre.length) := by
  constructor
  · intro hall pr hpr
    obtain ⟨hdata, _, _⟩ := solve_models_success hall hwf hnd
    rw [hdata]
    simp only [Option.getD_some]
    exact countP_entry_of_nodup (takeSuccess tasks) hnd pr hpr
  · rintro pre p post rfl hpre
    exact ⟨solve_models_data_none (allSuccess_append_fail pre p post),
      by rw [finalProgress_eq, takeSuccess_append_fail p post hpre]⟩

/-- Claim C4's counterexample: in a two-task batch whose second solve
raises, the run stores no batch result at all and the progress counter
stops at 1 — the failed task does not advance it to 2. -/
theorem c4_failed_no_advance :
    (solve_models tasksFail).data = none ∧ finalProgress tasksFail = 1 ∧
    tasksFail.length = 2 := by decide

theorem c4_one_record_witness :
    ((solve_models tasksOk).data.getD []).countP
      (fun kv => kv.1 == mangle (tempName (lit "a.lp"))) = 1 :=
  (c4_one_record_progress tasksOk (by decide) (by decide)).1 (by decide)
    (lit "a.lp", rA) (by decide)

/-- Claim C5 (confirmed).  The progress trace of a run is `0, 1, …, k`
where `k` counts the successfully processed tasks: it is monotonically
non-decreasing, never exceeds the declared total, and ends at `N` when all
`N` tasks succeed. -/
theorem c5_progress_monotone (tasks : List ModelTask) :
    List.Chain' (· ≤ ·) (solve_models tasks).trace ∧
    (∀ v ∈ (solve_models tasks).trace, v ≤ tasks.length) ∧
    (allSuccess tasks = true →
      (solve_models tasks).trace.getLastD 0 = tasks.length) := by
  refine ⟨?_, ?_, ?_⟩
  · rw [solve_models_trace]
    cases hk : (takeSuccess tasks).length with
    | zero => simp
    | succ m =>
      rw [List.range'_succ, List.chain'_cons]
      refine ⟨by omega, ?_⟩
      have h := chainLe_range' 1 (m + 1)
      rwa [List.range'_succ] at h
  · intro v hv
    rw [solve_models_trace] at hv
    have hle := takeSuccess_length_le tasks
    rcases List.mem_cons.mp hv with rfl | hv2
    · omega
    · have h := List.mem_range'_1.mp hv2
      omega
  · intro hall
    have h := finalProgress_eq tasks
    rw [finalProgress] at h
    rw [h, takeSuccess_of_allSuccess hall]

theorem c5_progress_witness :
    (solve_models tasksOk).trace.getLastD 0 = tasksOk.length :=
  (c5_progress_monotone tasksOk).2.2 (by decide)

/-- Claim C6 (corrected).  Cleanup happens only inside `read_temp_files`,
which runs only when the whole loop succeeds: a successful batch removes
every temp file and the directory, but a batch aborted by a solver error
leaves its temp files and the directory behind (see `c6_leak_on_error`). -/
theorem c6_cleanup_success (tasks : List ModelTask)
    (hall : allSuccess tasks = true)
    (hwf : ∀ pr ∈ takeSuccess tasks, wfRecord pr.2 = true)
    (hnd : ((takeSuccess tasks).map (fun pr => mangle (tempName pr.1))).Nodup) :
    (solve_models tasks).dirAfter = [] ∧ (solve_models tasks).dirRemoved = true :=
  ⟨(solve_models_success hall hwf hnd).2.1, (solve_models_success hall hwf hnd).2.2⟩

/-- Claim C6's counterexample: a batch whose second solve raises keeps the
first task's temp file and the directory — pending intermediate storage is
leaked. -/
theorem c6_leak_on_error :
    (solve_models tasksFail).dirAfter = [(tempName (lit "a.lp"), fileText rA)] ∧
    (solve_models tasksFail).dirRemoved = false := by decide

theorem c6_cleanup_witness : (solve_models tasksOk).dirRemoved = true :=
  (c6_cleanup_success tasksOk (by decide) (by decide) (by decide)).2

/-- Claim C7 (corrected).  `save_to_excel` hands the user-chosen final path
straight to the spreadsheet writer — there is no temporary location and no
rename — so a write interrupted after `k` sheets leaves exactly the prefix
written so far at the target path (and touches no other path). -/
theorem c7_write_in_place (fs : Dir) (res : Results) (path : Str) (k : Nat) :
    lookupD (save_to_excel_write fs res path (some k)) path =
      some (joinNL ((docSheetNames res).take k)) ∧
    (∀ q, q ≠ path →
      lookupD (save_to_excel_write fs res path (some k)) q = lookupD fs q) := by
  constructor
  · exact lookupD_writeFileD_self fs path _
  · intro q hq
    exact lookupD_writeFileD_other fs path _ q hq

/-- Claim C7's counterexample: an interruption after one sheet leaves a
partially written document at the target path. -/
theorem c7_partial_file_left :
    save_to_excel_write [] resOne outPath (some 1) =
      [(outPath, lit "Model_1_Solution")] ∧
    joinNL (docSheetNames resOne) ≠ lit "Model_1_Solution" := by decide

theorem c7_write_witness :
    lookupD (save_to_excel_write [] resOne outPath (some 1)) (lit "a.txt") =
      lookupD [] (lit "a.txt") :=
  (c7_write_in_place [] resOne outPath 1).2 (lit "a.txt") (by decide)

/-- Claim C8 (confirmed).  With no stored batch result (the key missing or
the dict empty), `save_result_to_excel` shows the warning and returns
before the save dialog: no file write occurs. -/
theorem c8_refuse_empty (data : Option Results) (chosen : Option Str)
    (h : data = none ∨ data = some []) :
    save_result_to_excel data chosen = [SaveEffect.warned] ∧
    (∀ p, SaveEffect.wroteFile p ∉ save_result_to_excel data chosen) := by
  rcases h with rfl | rfl
  · exact ⟨rfl, fun p hp => by simp [save_result_to_excel] at hp⟩
  · exact ⟨rfl, fun p hp => by simp [save_result_to_excel] at hp⟩

theorem c8_refuse_witness :
    save_result_to_excel none (some outPath) = [SaveEffect.warned] :=
  (c8_refuse_empty none (some outPath) (Or.inl rfl)).1

/-- Claim C9 (code bug).  `__enter__` never saves the original stderr
(line 18 assigns `self._stderr` twice), and `__exit__` sets `sys.stderr` to
the in-memory buffer: after the scope, stdout is restored but stderr is the
buffer, not its original destination. -/
theorem c9_stderr_not_restored :
    (captureEnter ⟨1, 2⟩ 3).1 = ⟨3, 3⟩ ∧
    captureExit (captureEnter ⟨1, 2⟩ 3).2 = ⟨1, 3⟩ ∧
    (captureExit (captureEnter ⟨1, 2⟩ 3).2).stderr ≠ (⟨1, 2⟩ : IOState).stderr := by
  decide

/-- Claim C10 (confirmed).  A normal return of `read_temp_files` forces
every pre-marker line containing `": "` in every matching temp file to
split into exactly two pieces with a float-parsable second piece; and a
record whose variable name contains `": "` makes the read raise, losing the
entire batch dict. -/
theorem c10_parse_requirement :
    (∀ (d : Dir) (m : Results), (read_temp_files d).1 = some m →
      ∀ fc ∈ d,
        (leadsWith (lit "temp_") fc.1 && endsWithStr (lit ".txt") fc.1) = true →
      ∀ l ∈ (pyReadLines fc.2).takeWhile (fun x => !(pyStrip x == dashes80)),
        hasCS l = true → varLineOK l = true) ∧
    readTempFile (fileText rCol) = none ∧
    (read_temp_files [(tempName (lit "c.lp"), fileText rCol)]).1 = none := by
  refine ⟨?_, by decide, by decide⟩
  intro d m hread fc hfc hpat l hl hcs
  cases hv : varLineOK l with
  | true => rfl
  | false =>
    exfalso
    have hnone : readTempFile fc.2 = none := readTempFile_none_of_badVar hl hcs hv
    rcases hloop : rtfLoop d [] with ⟨res, rem⟩
    cases res with
    | none =>
      rw [read_temp_files, hloop] at hread
      simp at hread
    | some r2 => exact rtfLoop_some_forces hloop fc hfc hpat hnone

theorem c10_parse_witness : varLineOK (lit "x: 1.0") = true :=
  c10_parse_requirement.1 [(tempName (lit "a.lp"), fileText rA)]
    [(lit "a.lp", (rA.vars, readBackLog rA))] (by decide)
    (tempName (lit "a.lp"), fileText rA) (by decide) (by decide)
    (lit "x: 1.0") (by decide) (by decide)

end GurobiRunner
